import Mathlib

/-
Shallow embedding of the sentiment-analysis pipeline implemented by
src/sentiment_analysis.py (lexicon strategy) and
src/sentiment_analysis_bert.py (model strategy).

Modelling conventions:
- Python strings that get iterated character-wise are `List Char`;
  strings only compared for equality stay `String`.
- The external tokenizer capability is a `List String` of surface tokens;
  the lexicon dictionary is a finite lookup `String → Option Char` holding
  the polarity character stored by `load_sentiment_dictionary`.
- The external classifier capability is `List Char → Option SAResult`;
  `none` models an exception raised by the classifier (which the code
  swallows, skipping the sentence).
- Machine integers are `ℤ`/`ℕ`; Python floats are modelled as `ℚ`.
-/

namespace SampleSentiment

/-! ## Lexicon strategy: `analyze_sentiment` (src/sentiment_analysis.py lines 38-62) -/

/-- One iteration of the token loop in `analyze_sentiment`: look the
surface form up in the dictionary and update `(score, positive_words,
negative_words)` exactly as the Python `for token in tokens` body does. -/
def senStep (dic : String → Option Char) (acc : ℤ × List String × List String)
    (w : String) : ℤ × List String × List String :=
  match dic w with
  | some c =>
    if c = 'p' then (acc.1 + 1, acc.2.1 ++ [w], acc.2.2)
    else if c = 'n' then (acc.1 - 1, acc.2.1, acc.2.2 ++ [w])
    else acc
  | none => acc

/-- Function `analyze_sentiment(text, sentiment_dic)` after the external tokenizer
has produced the surface-token list: fold the loop body over the tokens
starting from `score = 0` and empty evidence lists. -/
def analyze_sentiment (tokens : List String) (dic : String → Option Char) :
    ℤ × List String × List String :=
  tokens.foldl (senStep dic) (0, [], [])

/-- The reporting step `list(set(words))[:20]` of `main`
(src/sentiment_analysis.py lines 195-205): deduplicate the evidence list
(first-occurrence order) and keep at most 20 entries. -/
def reported_words (ws : List String) : List String :=
  ws.dedup.take 20

theorem senStep_foldl (dic : String → Option Char) (toks : List String)
    (acc : ℤ × List String × List String) :
    toks.foldl (senStep dic) acc =
      (acc.1 + toks.countP (fun w => decide (dic w = some 'p'))
             - toks.countP (fun w => decide (dic w = some 'n')),
       acc.2.1 ++ toks.filter (fun w => decide (dic w = some 'p')),
       acc.2.2 ++ toks.filter (fun w => decide (dic w = some 'n'))) := by
  induction toks generalizing acc with
  | nil => simp
  | cons w ws ih =>
    rw [List.foldl_cons, ih]
    simp only [List.countP_cons, List.filter_cons]
    unfold senStep
    rcases hw : dic w with _ | c
    · simp [hw]
    · by_cases hp : c = 'p'
      · subst hp
        simp only [hw, if_pos rfl]
        simp only [decide_eq_true_eq, Option.some.injEq]
        norm_num
        constructor
        · push_cast; ring
        · simp
      · by_cases hn : c = 'n'
        · subst hn
          simp only [hw, if_neg (by decide : ¬ ('n' : Char) = 'p'), if_pos rfl]
          simp only [decide_eq_true_eq, Option.some.injEq]
          norm_num
          constructor
          · push_cast; ring
          · simp
        · have hp2 : ¬ (some c = some 'p') := by simp [hp]
          have hn2 : ¬ (some c = some 'n') := by simp [hn]
          simp [hw, hp, hn, hp2, hn2]

/-- C1: the lexicon-strategy score returned by `analyze_sentiment` equals
the number of tokens (with multiplicity) whose lexicon polarity is
positive minus the number whose lexicon polarity is negative; tokens
absent from the lexicon (or carrying any other stored value) contribute
nothing. -/
theorem lexicon_score_eq_pos_sub_neg (tokens : List String)
    (dic : String → Option Char) :
    (analyze_sentiment tokens dic).1 =
      (tokens.countP (fun w => decide (dic w = some 'p')) : ℤ)
        - tokens.countP (fun w => decide (dic w = some 'n')) := by
  unfold analyze_sentiment
  rw [senStep_foldl]
  simp

/-- The evidence lists accumulated by `analyze_sentiment` are exactly the
matching tokens, in text order, with multiplicity. -/
theorem lexicon_evidence_eq_filter (tokens : List String)
    (dic : String → Option Char) :
    (analyze_sentiment tokens dic).2.1
        = tokens.filter (fun w => decide (dic w = some 'p')) ∧
    (analyze_sentiment tokens dic).2.2
        = tokens.filter (fun w => decide (dic w = some 'n')) := by
  unfold analyze_sentiment
  rw [senStep_foldl]
  exact ⟨by simp, by simp⟩

/-- The lexicon of the C6 scenario: 良い is positive, 悪い is negative. -/
def c6_lexicon (w : String) : Option Char :=
  if w = "良い" then some 'p' else if w = "悪い" then some 'n' else none

/-- The token stream of the C6 scenario. -/
def c6_tokens : List String := ["良い", "悪い", "良い", "です"]

/-- C6 counterexample: at the scenario input the scorer itself returns the
positive-evidence list `[良い, 良い]`, which contains a duplicate — the
raw evidence produced by `analyze_sentiment` is not duplicate-free. -/
theorem scorer_evidence_has_duplicates :
    ¬ (analyze_sentiment c6_tokens c6_lexicon).2.1.Nodup := by
  have h : (analyze_sentiment c6_tokens c6_lexicon).2.1 = ["良い", "良い"] := by
    rw [(lexicon_evidence_eq_filter c6_tokens c6_lexicon).1]
    simp [c6_tokens, c6_lexicon]
  rw [h]
  simp

/-- C6 (amended): the scorer returns evidence lists that may repeat a
token; the reporter deduplicates them, so the displayed evidence sets are
duplicate-free. In the scenario the scorer yields score `+1` with raw
lists `[良い, 良い]` and `[悪い]`, and the reported sets are `[良い]` and
`[悪い]`. -/
theorem reported_evidence_nodup :
    (∀ (tokens : List String) (dic : String → Option Char),
        (reported_words (analyze_sentiment tokens dic).2.1).Nodup ∧
        (reported_words (analyze_sentiment tokens dic).2.2).Nodup) ∧
    analyze_sentiment c6_tokens c6_lexicon = (1, ["良い", "良い"], ["悪い"]) ∧
    reported_words (analyze_sentiment c6_tokens c6_lexicon).2.1 = ["良い"] ∧
    reported_words (analyze_sentiment c6_tokens c6_lexicon).2.2 = ["悪い"] := by
  have hval : analyze_sentiment c6_tokens c6_lexicon = (1, ["良い", "良い"], ["悪い"]) := by
    unfold analyze_sentiment
    rw [senStep_foldl]
    simp [c6_tokens, c6_lexicon]
  refine ⟨fun tokens dic => ⟨?_, ?_⟩, hval, ?_, ?_⟩
  · exact (List.take_sublist _ _).nodup (List.nodup_dedup _)
  · exact (List.take_sublist _ _).nodup (List.nodup_dedup _)
  · rw [hval]; simp [reported_words]
  · rw [hval]; simp [reported_words]

/-! ## Paginated fetch plan (src/sentiment_analysis.py lines 138-151,
src/sentiment_analysis_bert.py lines 80-92) -/

/-- Page size used by both scripts (`max_records_per_request = 100`). -/
def max_records_per_request : ℕ := 100

/-- Record cap of the lexicon-mode script (`if int(total_num) > 30000`). -/
def LEXICON_CAP : ℕ := 30000

/-- Record cap of the model-mode script (`if int(total_num) > 1000`). -/
def MODEL_CAP : ℕ := 1000

/-- The clamping step: `if int(total_num) > cap: total_num = cap`. -/
def clampTotal (cap total : ℕ) : ℕ :=
  if total > cap then cap else total

/-- Computation `pages = (int(total_num) + max_records_per_request - 1) // max_records_per_request`,
computed on the clamped total. -/
def pageCount (cap total : ℕ) : ℕ :=
  (clampTotal cap total + max_records_per_request - 1) / max_records_per_request

/-- The sequence of `startRecord` offsets issued by the fetch loop
`for i in range(pages): params_data[startRecord] = 1 + (i * max_records_per_request)`. -/
def startOffsets (cap total : ℕ) : List ℕ :=
  (List.range (pageCount cap total)).map fun i => 1 + i * max_records_per_request

/-- C2: for every non-zero run, in either mode, the effective total
processed is `min(totalRecords, cap)` (cap 30000 in lexicon mode, 1000 in
model mode) and the number of page fetches is `ceil(effectiveTotal / 100)`. -/
theorem effective_total_and_pages (total cap : ℕ) (hpos : 0 < total)
    (hcap : cap = LEXICON_CAP ∨ cap = MODEL_CAP) :
    clampTotal cap total = min total cap ∧
    pageCount cap total = ⌈(min total cap : ℚ) / 100⌉₊ := by
  have hc : 0 < cap := by
    rcases hcap with h | h <;> simp [h, LEXICON_CAP, MODEL_CAP]
  have hclamp : clampTotal cap total = min total cap := by
    unfold clampTotal
    rw [min_def]
    split_ifs <;> omega
  refine ⟨hclamp, ?_⟩
  unfold pageCount max_records_per_request
  rw [hclamp]
  have hm : 0 < min total cap := lt_min hpos hc
  obtain ⟨k, hk⟩ : ∃ k, (min total cap + 100 - 1) / 100 = k + 1 :=
    ⟨(min total cap + 100 - 1) / 100 - 1, by omega⟩
  rw [hk, eq_comm, Nat.ceil_eq_iff (by omega)]
  have h100 : (0 : ℚ) < 100 := by norm_num
  have hlo : k * 100 < min total cap := by omega
  have hhi : min total cap ≤ (k + 1) * 100 := by omega
  constructor
  · rw [lt_div_iff₀ h100]
    push_cast
    exact_mod_cast hlo
  · rw [div_le_iff₀ h100]
    push_cast
    exact_mod_cast hhi

/-- C2 witness: a concrete lexicon-mode run with 250 records. -/
theorem effective_total_and_pages_witness :
    clampTotal LEXICON_CAP 250 = min 250 LEXICON_CAP ∧
    pageCount LEXICON_CAP 250 = ⌈(min 250 LEXICON_CAP : ℚ) / 100⌉₊ :=
  effective_total_and_pages 250 LEXICON_CAP (by decide) (Or.inl rfl)

/-- C7: the fetch request for page index `i` uses the 1-based start offset
`1 + i*100`; a run with 250 total records issues exactly the 3 requests at
offsets 1, 101, 201 in either mode. -/
theorem fetch_offsets (cap total i : ℕ) (hi : i < pageCount cap total) :
    (startOffsets cap total).getD i 0 = 1 + i * 100 ∧
    startOffsets LEXICON_CAP 250 = [1, 101, 201] ∧
    startOffsets MODEL_CAP 250 = [1, 101, 201] := by
  refine ⟨?_, by decide, by decide⟩
  have hlen : i < (startOffsets cap total).length := by
    simpa [startOffsets] using hi
  rw [List.getD_eq_getElem _ _ hlen]
  simp [startOffsets, max_records_per_request]

/-- C7 witness: the third request of a 250-record lexicon-mode run starts
at record 201. -/
theorem fetch_offsets_witness :
    (startOffsets LEXICON_CAP 250).getD 2 0 = 1 + 2 * 100 ∧
    startOffsets LEXICON_CAP 250 = [1, 101, 201] ∧
    startOffsets MODEL_CAP 250 = [1, 101, 201] :=
  fetch_offsets LEXICON_CAP 250 2 (by decide)

/-! ## Query normalizer (src/sentiment_analysis.py lines 96-110,
src/sentiment_analysis_bert.py lines 40-54) -/

/-- Exact-match semantics of the regex `\d{4}-\d{2}-\d{2}` on a character
list: ten characters, digits in the year/month/day slots, `-` separators. -/
def isDateFmtChars : List Char → Bool
  | [y1, y2, y3, y4, s1, m1, m2, s2, d1, d2] =>
    y1.isDigit && y2.isDigit && y3.isDigit && y4.isDigit && s1 == '-' &&
    m1.isDigit && m2.isDigit && s2 == '-' && d1.isDigit && d2.isDigit
  | _ => false

/-- Python `re.match(r'^\d{4}-\d{2}-\d{2}$', s)` as a Boolean: in Python,
`$` also matches just before a single newline at the end of the string, so
the match succeeds on the exact pattern or on the pattern followed by one
final `\n`. -/
def pyDateMatch (s : List Char) : Bool :=
  isDateFmtChars s || (s.getLast? == some '\n' && isDateFmtChars s.dropLast)

/-- The raw operator inputs consumed by `main` before the query is built:
keyword, optional speaker, and the two raw date strings. -/
structure RawQuery where
  keyword : String
  speaker : Option String
  from_input : List Char
  until_input : List Char

/-- The query-parameter dictionary `params` sent to the search endpoint. -/
structure SearchParams where
  any : String
  speaker : Option String
  fromDate : List Char
  untilDate : List Char

/-- The date-normalization steps of `main`: each date field is kept only
when it is non-empty and matches the pattern (`if from_input and
re.match(...)`), otherwise the computed default is substituted
(`one_year_ago` = today − 365 days, `today`). -/
def normalize_query (one_year_ago today : List Char) (q : RawQuery) : SearchParams :=
  { any := q.keyword
    speaker := q.speaker
    fromDate :=
      if !q.from_input.isEmpty && pyDateMatch q.from_input then q.from_input
      else one_year_ago
    untilDate :=
      if !q.until_input.isEmpty && pyDateMatch q.until_input then q.until_input
      else today }

theorem pyDateMatch_eq_false {s : List Char} (hnl : '\n' ∉ s)
    (hfmt : isDateFmtChars s = false) : pyDateMatch s = false := by
  unfold pyDateMatch
  rw [hfmt, Bool.false_or]
  rcases hl : s.getLast? with _ | c
  · simp
  · have hc : c ∈ s := List.mem_of_getLast?_eq_some hl
    have : ¬ c = '\n' := fun h => hnl (h ▸ hc)
    simp [this]

/-- C4: a raw date input that does not match `^\d{4}-\d{2}-\d{2}$`
(including the empty string) is replaced by its computed default
(today − 365 days for `from`, today for `until`), and the keyword and
speaker fields always pass through unchanged. Raw inputs are lines read
from the operator, so they contain no newline character. -/
theorem malformed_date_defaulted (one_year_ago today : List Char) (q : RawQuery) :
    ((normalize_query one_year_ago today q).any = q.keyword ∧
     (normalize_query one_year_ago today q).speaker = q.speaker) ∧
    ('\n' ∉ q.from_input → isDateFmtChars q.from_input = false →
      (normalize_query one_year_ago today q).fromDate = one_year_ago) ∧
    ('\n' ∉ q.until_input → isDateFmtChars q.until_input = false →
      (normalize_query one_year_ago today q).untilDate = today) := by
  refine ⟨⟨rfl, rfl⟩, ?_, ?_⟩ <;> intro h1 h2 <;>
    simp [normalize_query, pyDateMatch_eq_false h1 h2]

/-- C4 witness: a slash-separated date and an empty date both fall back to
their defaults while keyword and speaker are untouched. -/
theorem malformed_date_defaulted_witness :
    ((normalize_query "2024-10-12".toList "2025-10-12".toList
        ⟨"防衛", some "山田", "2025/01/01".toList, "".toList⟩).any = "防衛" ∧
     (normalize_query "2024-10-12".toList "2025-10-12".toList
        ⟨"防衛", some "山田", "2025/01/01".toList, "".toList⟩).speaker = some "山田") ∧
    (normalize_query "2024-10-12".toList "2025-10-12".toList
        ⟨"防衛", some "山田", "2025/01/01".toList, "".toList⟩).fromDate = "2024-10-12".toList ∧
    (normalize_query "2024-10-12".toList "2025-10-12".toList
        ⟨"防衛", some "山田", "2025/01/01".toList, "".toList⟩).untilDate = "2025-10-12".toList := by
  have h := malformed_date_defaulted "2024-10-12".toList "2025-10-12".toList
    ⟨"防衛", some "山田", "2025/01/01".toList, "".toList⟩
  exact ⟨h.1, h.2.1 (by decide) (by decide), h.2.2 (by decide) (by decide)⟩

/-! ## Model strategy: `analyze_speeches_with_bert`
(src/sentiment_analysis_bert.py lines 117-154) -/

/-- Python `str.split(sep)` for a single-character separator, on the
character list: splitting the empty string yields `[[]]`, and every
occurrence of the separator starts a new (possibly empty) chunk. -/
def splitOnChar (c : Char) : List Char → List (List Char)
  | [] => [[]]
  | x :: xs =>
    match splitOnChar c xs with
    | [] => [[x]]
    | ys :: rest => if x = c then [] :: ys :: rest else (x :: ys) :: rest

/-- One classifier verdict: the `{label, score}` dictionary returned by
the sentiment-analysis pipeline capability. -/
structure SAResult where
  label : String
  score : ℚ

/-- Line 137: `score = result['score'] if result['label'] == 'POSITIVE'
else -result['score']`. -/
def sentenceScore (r : SAResult) : ℚ :=
  if r.label = "POSITIVE" then r.score else -r.score

/-- The guard of line 133: a sentence is skipped when
`not sentence.strip() or len(sentence) < 5`, so it is analyzed when its
strip is non-empty and its raw length is at least 5. -/
def qualifies (s : List Char) : Bool :=
  !s.all Char.isWhitespace && decide (5 ≤ s.length)

/-- The signed scores collected for one speech: split on `。`, keep the
qualifying sentences, and for each one where the classifier returns a
verdict (rather than raising) convert it with `sentenceScore`. -/
def speechScores (cl : List Char → Option SAResult) (speech : List Char) : List ℚ :=
  ((splitOnChar '。' speech).filter qualifies).filterMap
    fun s => (cl s).map sentenceScore

/-- Lines 143-145: a speech contributes the mean of its sentence scores,
and only when at least one sentence was classified. -/
def perSpeechScore (cl : List Char → Option SAResult) (speech : List Char) :
    Option ℚ :=
  let l := speechScores cl speech
  if l.isEmpty then none else some (l.sum / l.length)

/-- Lines 147-148: a party's score is the mean of its per-speech scores,
defined only when at least one speech was scored. -/
def partyScore (cl : List Char → Option SAResult) (speeches : List (List Char)) :
    Option ℚ :=
  let ts := speeches.filterMap (perSpeechScore cl)
  if ts.isEmpty then none else some (ts.sum / ts.length)

/-- One entry of `analysis_results`. -/
structure ScoreResult where
  party : String
  score : ℚ
  speech_count : ℕ

/-- Function `analyze_speeches_with_bert`: fold over the grouped speeches in order,
appending a `ScoreResult` exactly for the parties whose
`analyzed_speech_count` ended up positive. -/
def analyze_speeches_with_bert (cl : List Char → Option SAResult)
    (byParty : List (String × List (List Char))) : List ScoreResult :=
  byParty.filterMap fun g =>
    (partyScore cl g.2).map fun q => ⟨g.1, q, g.2.length⟩

/-- Line 190: `sorted(results, key=lambda x: x['score'], reverse=True)`,
a stable descending sort on the score field. -/
def sortResults (l : List ScoreResult) : List ScoreResult :=
  l.mergeSort fun a b => decide (b.score ≤ a.score)

/-- The fixed bar width `bar_length = 20` of lines 195-207 (an integer
constant only ever used in rational arithmetic). -/
def bar_length : ℚ := 20

/-- Lines 195-207 of `main`: the proportional bar. The Boolean is `true`
when the filled part sits on the right of the divider (`score > 0`); the
number is how many `#` characters are printed, `int(bar_length * score)`
or `int(bar_length * abs(score))`, where Python `int()` truncates (on
these non-negative products, the floor). -/
def render_bar (score : ℚ) : Bool × ℕ :=
  if 0 < score then (true, (⌊bar_length * score⌋).toNat)
  else (false, (⌊bar_length * |score|⌋).toNat)

/-- C3: every group in the model-mode report produced at least one
classified segment; in particular a classifier that fails on every
sentence (modelled by returning `none`) leaves the report empty. -/
theorem no_signal_group_excluded :
    (∀ (cl : List Char → Option SAResult)
       (byParty : List (String × List (List Char))) (r : ScoreResult),
        r ∈ analyze_speeches_with_bert cl byParty →
        ∃ ss, (r.party, ss) ∈ byParty ∧ ∃ s ∈ ss, speechScores cl s ≠ []) ∧
    (∀ byParty, analyze_speeches_with_bert (fun _ => none) byParty = []) := by
  constructor
  · intro cl byParty r hr
    obtain ⟨g, hg, hmap⟩ := List.mem_filterMap.1 hr
    obtain ⟨q, hq, hrq⟩ := Option.map_eq_some'.1 hmap
    have hparty : r.party = g.1 := by rw [← hrq]
    have hne : g.2.filterMap (perSpeechScore cl) ≠ [] := by
      intro hnil
      simp only [partyScore] at hq
      rw [hnil] at hq
      simp at hq
    obtain ⟨t, ht⟩ := List.exists_mem_of_ne_nil (g.2.filterMap (perSpeechScore cl)) hne
    obtain ⟨s, hs, hps⟩ := List.mem_filterMap.1 ht
    refine ⟨g.2, ?_, s, hs, ?_⟩
    · rw [hparty]
      exact hg
    · intro hnil
      simp only [perSpeechScore] at hps
      rw [hnil] at hps
      simp at hps
  · intro byParty
    unfold analyze_speeches_with_bert
    rw [List.filterMap_eq_nil_iff]
    intro g _
    have h1 : partyScore (fun _ => (none : Option SAResult)) g.2 = none := by
      unfold partyScore
      have h2 : g.2.filterMap (perSpeechScore fun _ => none) = [] := by
        rw [List.filterMap_eq_nil_iff]
        intro s _
        unfold perSpeechScore
        simp [speechScores]
      rw [h2]
      rfl
    rw [h1]
    rfl

/-- Concrete classifier for the witnesses: always positive, confidence 1. -/
def unit_classifier : List Char → Option SAResult :=
  fun _ => some ⟨"POSITIVE", 1⟩

/-- Concrete grouped corpus for the witnesses: one party, one speech of
one qualifying sentence. -/
def sample_groups : List (String × List (List Char)) :=
  [("公明党", [['あ', 'い', 'う', 'え', 'お', '。']])]

theorem sample_speechScores :
    speechScores unit_classifier ['あ', 'い', 'う', 'え', 'お', '。'] = [1] := by
  have hsplit : (splitOnChar '。' ['あ', 'い', 'う', 'え', 'お', '。']).filter qualifies
      = [['あ', 'い', 'う', 'え', 'お']] := by decide
  unfold speechScores
  rw [hsplit]
  simp [unit_classifier, sentenceScore]

theorem sample_partyScore :
    partyScore unit_classifier [['あ', 'い', 'う', 'え', 'お', '。']] = some 1 := by
  have hps : perSpeechScore unit_classifier ['あ', 'い', 'う', 'え', 'お', '。'] = some 1 := by
    unfold perSpeechScore
    rw [sample_speechScores]
    norm_num
  unfold partyScore
  rw [List.filterMap_cons, hps]
  norm_num

/-- C3 witness: the concrete one-party run does appear in the report, and
the theorem recovers a speech with a classified segment for it. -/
theorem no_signal_group_excluded_witness :
    ∃ ss, (("公明党" : String), ss) ∈ sample_groups ∧
      ∃ s ∈ ss, speechScores unit_classifier s ≠ [] := by
  have hmem : (⟨"公明党", 1, 1⟩ : ScoreResult) ∈
      analyze_speeches_with_bert unit_classifier sample_groups := by
    unfold analyze_speeches_with_bert sample_groups
    rw [List.filterMap_cons]
    rw [show partyScore unit_classifier [['あ', 'い', 'う', 'え', 'お', '。']] = some 1
      from sample_partyScore]
    simp
  exact no_signal_group_excluded.1 unit_classifier sample_groups ⟨"公明党", 1, 1⟩ hmem

/-- C8: the ranked report lists the scored groups in non-increasing score
order — every adjacent pair of the sorted output satisfies
`earlier.score ≥ later.score`. -/
theorem ranked_output_sorted_desc (l : List ScoreResult) :
    (sortResults l).Chain' fun a b => b.score ≤ a.score := by
  have htrans : ∀ a b c : ScoreResult,
      decide (b.score ≤ a.score) → decide (c.score ≤ b.score) →
      decide (c.score ≤ a.score) := by
    intro a b c hab hbc
    simp only [decide_eq_true_eq] at hab hbc ⊢
    exact le_trans hbc hab
  have htotal : ∀ a b : ScoreResult,
      decide (b.score ≤ a.score) || decide (a.score ≤ b.score) := by
    intro a b
    simp only [Bool.or_eq_true, decide_eq_true_eq]
    exact le_total _ _
  have h := List.sorted_mergeSort htrans htotal l
  refine List.Pairwise.chain' (List.Pairwise.imp ?_ h)
  intro a b hab
  simpa using hab

/-! ## C9: bounds of the model-mode group score -/

theorem abs_list_sum_le_length (l : List ℚ) (h : ∀ x ∈ l, |x| ≤ 1) :
    |l.sum| ≤ l.length := by
  induction l with
  | nil => simp
  | cons a t ih =>
    rw [List.sum_cons]
    calc |a + t.sum| ≤ |a| + |t.sum| := abs_add _ _
    _ ≤ 1 + t.length := add_le_add (h a (by simp)) (ih fun x hx => h x (by simp [hx]))
    _ = ((a :: t).length : ℚ) := by push_cast [List.length_cons]; ring

theorem abs_list_avg_le_one (l : List ℚ) (hne : l ≠ []) (h : ∀ x ∈ l, |x| ≤ 1) :
    |l.sum / l.length| ≤ 1 := by
  have hlen : (0 : ℚ) < l.length := by
    have := List.length_pos.2 hne
    exact_mod_cast this
  rw [abs_div, abs_of_pos hlen, div_le_one hlen]
  exact abs_list_sum_le_length l h

theorem abs_sentenceScore_le_one (r : SAResult) (h0 : 0 ≤ r.score)
    (h1 : r.score ≤ 1) : |sentenceScore r| ≤ 1 := by
  unfold sentenceScore
  split_ifs
  · rw [abs_of_nonneg h0]; exact h1
  · rw [abs_neg, abs_of_nonneg h0]; exact h1

theorem abs_perSpeechScore_le_one (cl : List Char → Option SAResult)
    (hcl : ∀ s r, cl s = some r → 0 ≤ r.score ∧ r.score ≤ 1)
    (speech : List Char) (t : ℚ) (ht : perSpeechScore cl speech = some t) :
    |t| ≤ 1 := by
  simp only [perSpeechScore] at ht
  split at ht
  · exact absurd ht (by simp)
  · rename_i hcond
    have hne : speechScores cl speech ≠ [] := by
      intro hnil
      exact hcond (by rw [hnil]; rfl)
    have hbound : ∀ x ∈ speechScores cl speech, |x| ≤ 1 := by
      intro x hx
      obtain ⟨s, hs, hmap⟩ := List.mem_filterMap.1 hx
      obtain ⟨r, hr, hxr⟩ := Option.map_eq_some'.1 hmap
      obtain ⟨hr0, hr1⟩ := hcl s r hr
      rw [← hxr]
      exact abs_sentenceScore_le_one r hr0 hr1
    rw [← Option.some.inj ht]
    exact abs_list_avg_le_one _ hne hbound

/-- C9: in model mode, if every classifier confidence lies in `[0, 1]`,
then every group score produced by the averaging in
`analyze_speeches_with_bert` lies in `[-1, 1]`. -/
theorem model_score_in_unit_interval (cl : List Char → Option SAResult)
    (speeches : List (List Char)) (q : ℚ)
    (hcl : ∀ s r, cl s = some r → 0 ≤ r.score ∧ r.score ≤ 1)
    (hq : partyScore cl speeches = some q) :
    -1 ≤ q ∧ q ≤ 1 := by
  rw [← abs_le]
  simp only [partyScore] at hq
  split at hq
  · exact absurd hq (by simp)
  · rename_i hcond
    have hne : speeches.filterMap (perSpeechScore cl) ≠ [] := by
      intro hnil
      exact hcond (by rw [hnil]; rfl)
    have hbound : ∀ t ∈ speeches.filterMap (perSpeechScore cl), |t| ≤ 1 := by
      intro t htmem
      obtain ⟨speech, _, hps⟩ := List.mem_filterMap.1 htmem
      exact abs_perSpeechScore_le_one cl hcl speech t hps
    rw [← Option.some.inj hq]
    exact abs_list_avg_le_one _ hne hbound

/-- C9 witness: the concrete one-party run scores exactly 1, inside the
interval. -/
theorem model_score_in_unit_interval_witness : -1 ≤ (1 : ℚ) ∧ (1 : ℚ) ≤ 1 :=
  model_score_in_unit_interval unit_classifier [['あ', 'い', 'う', 'え', 'お', '。']] 1
    (fun s r h => by
      simp only [unit_classifier, Option.some.injEq] at h
      rw [← h]
      norm_num)
    sample_partyScore

/-- C10: a classified segment contributes `+confidence` exactly when the
label is the string `POSITIVE`; every other label (not only `NEGATIVE`)
contributes `-confidence`. In particular a classifier answering `NEUTRAL`
with confidence `c` on the sample sentence contributes `-c`. -/
theorem positive_label_gate :
    (∀ r : SAResult, r.label = "POSITIVE" → sentenceScore r = r.score) ∧
    (∀ r : SAResult, r.label ≠ "POSITIVE" → sentenceScore r = -r.score) ∧
    (∀ c : ℚ, speechScores (fun _ => some ⟨"NEUTRAL", c⟩)
        ['あ', 'い', 'う', 'え', 'お', '。'] = [-c]) := by
  refine ⟨fun r h => by simp [sentenceScore, h],
          fun r h => by simp [sentenceScore, h], fun c => ?_⟩
  have hsplit : (splitOnChar '。' ['あ', 'い', 'う', 'え', 'お', '。']).filter qualifies
      = [['あ', 'い', 'う', 'え', 'お']] := by decide
  unfold speechScores
  rw [hsplit]
  simp [sentenceScore]

/-- C10 witness: a `NEUTRAL` verdict of confidence 3/4 contributes -3/4. -/
theorem positive_label_gate_witness :
    sentenceScore ⟨"NEUTRAL", 3/4⟩ = -(3/4 : ℚ) :=
  positive_label_gate.2.1 ⟨"NEUTRAL", 3/4⟩ (by decide)

/-! ## C5: the proportional bar -/

/-- C5 counterexample: at score 59/100 the claim's filled length
`round(|s| * 20)` is 12, but the program prints `int(20 * 0.59) = 11`
filled characters — `int()` truncates, it does not round. -/
theorem bar_fill_not_rounded :
    ¬ ((render_bar (59 / 100)).2 = (round (|(59 : ℚ) / 100| * 20)).toNat) := by
  have h1 : render_bar (59 / 100) = (true, 11) := by
    unfold render_bar bar_length
    rw [if_pos (by norm_num)]
    have hfl : (⌊(20 : ℚ) * (59 / 100)⌋ : ℤ) = 11 := by
      rw [Int.floor_eq_iff]
      norm_num
    simp [hfl]
  have h2 : round (|(59 : ℚ) / 100| * 20) = 12 := by
    rw [abs_of_nonneg (by norm_num), round_eq, Int.floor_eq_iff]
    norm_num
  rw [h1, h2]
  decide

/-- C5 (amended): for a score in `[-1, 1]` the filled length is the
truncation `int(20 * |s|)` (the floor of the non-negative product), never
exceeding the bar width 20, and the filled side is the right of the
divider exactly when the score is positive (negative or zero scores fill
the left). -/
theorem bar_fill_truncated (s : ℚ) (h1 : -1 ≤ s) (h2 : s ≤ 1) :
    (render_bar s).2 = (⌊(20 : ℚ) * |s|⌋).toNat ∧
    (render_bar s).2 ≤ 20 ∧
    ((render_bar s).1 = true ↔ 0 < s) := by
  have habs : |s| ≤ 1 := abs_le.2 ⟨h1, h2⟩
  have hfill : (⌊(20 : ℚ) * |s|⌋).toNat ≤ 20 := by
    have hle : (⌊(20 : ℚ) * |s|⌋ : ℤ) ≤ 20 := by
      calc (⌊(20 : ℚ) * |s|⌋ : ℤ) ≤ ⌊(20 : ℚ)⌋ :=
            Int.floor_le_floor (by nlinarith [abs_nonneg s])
      _ = 20 := by norm_num
    omega
  unfold render_bar bar_length
  by_cases hpos : 0 < s
  · rw [if_pos hpos, abs_of_pos hpos]
    rw [abs_of_pos hpos] at hfill
    exact ⟨rfl, hfill, by simp [hpos]⟩
  · rw [if_neg hpos]
    exact ⟨rfl, hfill, by simp [hpos]⟩

/-- C5 witness: score 1/2 fills 10 characters on the right. -/
theorem bar_fill_truncated_witness :
    (render_bar (1 / 2)).2 = (⌊(20 : ℚ) * |1 / 2|⌋).toNat ∧
    (render_bar (1 / 2)).2 ≤ 20 ∧
    ((render_bar (1 / 2)).1 = true ↔ 0 < (1 / 2 : ℚ)) :=
  bar_fill_truncated (1 / 2) (by norm_num) (by norm_num)

end SampleSentiment
